import Mathlib

/-!
Shallow embedding of the CTK settings-panel synchronizer
(`src/Libs/Widgets/ctkSettingsPanel.cpp`).

Modelling conventions:
* `QVariant` is the inductive `Variant`; the default-constructed `QVariant()`
  is `Variant.invalid` and `isValid` is false exactly on it.
* A `QObject` is an `Obj`: an association list of dynamic property values
  plus an association list of declared meta-properties (name → type name),
  which is what `metaObject()->property(i)` exposes.  `QObject::property`
  returns the invalid variant for an unknown name; `QObject::setProperty`
  always stores the value and returns whether the name is a declared
  property.
* Object pointers are `Option Nat` indices into a heap
  (`List (Nat × Obj)`); the null pointer is `none`.
* `QSettings` is a `Store` (key/value data plus a status code, `0` being
  `QSettings::NoError`); a `QSettings*` is a `SettingsRef`, a store value
  tagged with an identity `id` standing for the pointer, because
  `ctkSettingsPanel::setSettings` compares pointers, not contents.
* The whole observable state of one panel is `SettingsPanel`: the private
  members `Settings`, `Properties` (the `QMap`, kept as a list sorted by
  key so that iteration order matches `QMap::keys()`),
  `SaveToSettingsWhenRegister`, together with the heap of live objects and
  the event log (`emitted` = `settingChanged` signals, `warnings` =
  `logger.warn` calls, each recorded oldest first).
* `Q_ASSERT` is compiled out (release semantics): `PropertyType::setValue`
  on a null object or empty property name just returns `false`.
* The `QSignalMapper` wiring in `registerProperty` only subscribes to an
  external signal and is not part of the state transformation itself, so
  it has no counterpart here.
-/

inductive Variant where
  | invalid : Variant
  | boolV : Bool → Variant
  | intV : Int → Variant
  | strV : String → Variant
  | strListV : List String → Variant
deriving DecidableEq, Repr

/-- `QVariant::isValid`. -/
def Variant.isValid : Variant → Bool
  | .invalid => false
  | _ => true

/-- Association-list lookup (first match), used for property maps, stores
and the heap. -/
def alook {κ β : Type} [DecidableEq κ] : List (κ × β) → κ → Option β
  | [], _ => none
  | (k', v') :: rest, k => if k' = k then some v' else alook rest k

/-- Association-list update: replace the first binding of `k` in place, or
append a new binding. -/
def aset {κ β : Type} [DecidableEq κ] : List (κ × β) → κ → β → List (κ × β)
  | [], k, v => [(k, v)]
  | (k', v') :: rest, k, v =>
    if k' = k then (k, v) :: rest else (k', v') :: aset rest k v

/-- Sorted insert-or-replace for the `QMap<QString, PropertyType>`: keeps
the list ordered by key so that iterating the list is iterating
`QMap::keys()`. -/
def minsert {β : Type} : List (String × β) → String → β → List (String × β)
  | [], k, v => [(k, v)]
  | (k', v') :: rest, k, v =>
    if k = k' then (k, v) :: rest
    else if k < k' then (k, v) :: (k', v') :: rest
    else (k', v') :: minsert rest k v

/-- A live `QObject`: dynamic property values and declared meta-properties
(property name → `QMetaProperty::typeName`). -/
structure Obj where
  props : List (String × Variant)
  propTypes : List (String × String)
deriving DecidableEq, Repr

/-- `QObject::property(name)`: the invalid variant when the name is not
set. -/
def Obj.getProperty (o : Obj) (name : String) : Variant :=
  (alook o.props name).getD .invalid

/-- `QObject::setProperty(name, v)`: stores the value; the returned flag is
whether `name` is a declared property (a dynamic-property write returns
`false`). -/
def Obj.setProperty (o : Obj) (name : String) (v : Variant) : Obj × Bool :=
  ({ o with props := aset o.props name v }, (alook o.propTypes name).isSome)

/-- Heap read; dereferencing assumes liveness, a missing id behaves as an
empty object. -/
def heapGet (h : List (Nat × Obj)) (i : Nat) : Obj :=
  (alook h i).getD ⟨[], []⟩

def heapSet (h : List (Nat × Obj)) (i : Nat) (o : Obj) : List (Nat × Obj) :=
  aset h i o

/-- The anonymous-namespace `PropertyType` struct. -/
structure PropertyType where
  Object : Option Nat
  Property : String
  PreviousValue : Variant
  DefaultValue : Variant
  Label : String
  Options : Nat
deriving DecidableEq, Repr

/-- `PropertyType::PropertyType()`: null object, empty strings, invalid
variants, `OptionNone`. -/
def PropertyType.mkDefault : PropertyType :=
  ⟨none, "", .invalid, .invalid, "", 0⟩

/-- `PropertyType::value()`. -/
def PropertyType.value (p : PropertyType) (h : List (Nat × Obj)) : Variant :=
  match p.Object with
  | none => .invalid
  | some i =>
    if p.Property = "" then .invalid
    else (heapGet h i).getProperty p.Property

/-- `PropertyType::metaProperty().typeName()`: the declared type name of
the tracked property, `none` when the meta-object has no property of that
name (an invalid `QMetaProperty`, whose `typeName()` is null and compares
unequal to `"QStringList"` under `qstrcmp`). -/
def PropertyType.declaredTypeName (p : PropertyType) (h : List (Nat × Obj)) : Option String :=
  match p.Object with
  | none => none
  | some i => alook (heapGet h i).propTypes p.Property

/-- `PropertyType::setValue(val)`: null object or empty property name fails
without writing; an invalid value aimed at a `QStringList`-typed property
is normalized to the empty string list (QTBUG-19823 workaround); the value
is then written with `QObject::setProperty`. -/
def PropertyType.setValue (p : PropertyType) (h : List (Nat × Obj)) (val : Variant) :
    List (Nat × Obj) × Bool :=
  match p.Object with
  | none => (h, false)
  | some i =>
    if p.Property = "" then (h, false)
    else
      let value := if p.declaredTypeName h = some "QStringList" ∧ val.isValid = false
                   then Variant.strListV [] else val
      let res := (heapGet h i).setProperty p.Property value
      (heapSet h i res.1, res.2)

/-- The `QSettings` contents: key/value data and the status code reported
by `QSettings::status()` (`0` = `NoError`). -/
structure Store where
  data : List (String × Variant)
  status : Nat
deriving DecidableEq, Repr

/-- `QSettings::contains`. -/
def Store.contains (s : Store) (k : String) : Bool :=
  (alook s.data k).isSome

/-- `QSettings::value(key)` with the default `QVariant()` fallback. -/
def Store.value (s : Store) (k : String) : Variant :=
  (alook s.data k).getD .invalid

/-- `QSettings::setValue`. -/
def Store.setValue (s : Store) (k : String) (v : Variant) : Store :=
  { s with data := aset s.data k v }

/-- A `QSettings*`: the store contents together with a pointer identity,
since `setSettings` compares pointers. -/
structure SettingsRef where
  id : Nat
  store : Store
deriving DecidableEq, Repr

/-- The observable state of one `ctkSettingsPanel` (its private members)
together with the heap of live objects and the event log. -/
structure SettingsPanel where
  Settings : Option SettingsRef
  Properties : List (String × PropertyType)
  SaveToSettingsWhenRegister : Bool
  heap : List (Nat × Obj)
  emitted : List (String × Variant)
  warnings : List (Nat × String)
deriving DecidableEq, Repr

/-- `ctkSettingsPanel::setSetting(key, newVal)`.  Note that
`d->Properties[key]` is `QMap::operator[]`, which default-inserts a
`PropertyType()` entry when `key` is unregistered, and that
`PreviousValue` is never touched here. -/
def setSetting (w : SettingsPanel) (key : String) (newVal : Variant) : SettingsPanel :=
  match w.Settings with
  | none => w
  | some r =>
    let oldVal := r.store.value key
    let s' := r.store.setValue key newVal
    let props := if (alook w.Properties key).isSome then w.Properties
                 else minsert w.Properties key PropertyType.mkDefault
    let prop := (alook props key).getD PropertyType.mkDefault
    let hres := prop.setValue w.heap newVal
    let warns := if s'.status ≠ 0 then w.warnings ++ [(s'.status, key)] else w.warnings
    let emits := if oldVal ≠ newVal then w.emitted ++ [(key, newVal)] else w.emitted
    { w with
      Settings := some { r with store := s' },
      Properties := props,
      heap := hres.1,
      warnings := warns,
      emitted := emits }

/-- `ctkSettingsPanel::updateSetting(key)`: pushes the live value of `key`
through `setSetting`; `d->Properties[key].value()` also default-inserts
when the key is unregistered. -/
def updateSetting (w : SettingsPanel) (key : String) : SettingsPanel :=
  match w.Settings with
  | none => w
  | some _ =>
    let props := if (alook w.Properties key).isSome then w.Properties
                 else minsert w.Properties key PropertyType.mkDefault
    let prop := (alook props key).getD PropertyType.mkDefault
    setSetting { w with Properties := props } key (prop.value w.heap)

/-- `ctkSettingsPanel::registerProperty(key, object, property, signal,
label, options)`.  The signal/`QSignalMapper` wiring is an external
subscription with no effect on this state. -/
def registerProperty (w : SettingsPanel) (key : String) (object : Option Nat)
    (property : String) (label : String) (options : Nat) : SettingsPanel :=
  let prop0 : PropertyType :=
    { Object := object, Property := property,
      PreviousValue := .invalid, DefaultValue := .invalid,
      Label := label, Options := options }
  let live := prop0.value w.heap
  let prop1 := { prop0 with DefaultValue := live, PreviousValue := live }
  let step :=
    match w.Settings with
    | some r =>
      if r.store.contains key then
        let val := r.store.value key
        let hres := prop1.setValue w.heap val
        ({ prop1 with PreviousValue := val }, hres.1)
      else (prop1, w.heap)
    | none => (prop1, w.heap)
  let w' := { w with Properties := minsert w.Properties key step.1, heap := step.2 }
  if w.SaveToSettingsWhenRegister then updateSetting w' key else w'

/-- One iteration of the loop in `ctkSettingsPanel::updateProperties`. -/
def updatePropertiesStep (w : SettingsPanel) (key : String) : SettingsPanel :=
  match w.Settings with
  | none => w
  | some r =>
    if r.store.contains key then
      let value := r.store.value key
      let prop := (alook w.Properties key).getD PropertyType.mkDefault
      let hres := prop.setValue w.heap value
      { w with
        heap := hres.1,
        Properties := minsert w.Properties key { prop with PreviousValue := value } }
    else updateSetting w key

/-- `ctkSettingsPanel::updateProperties`: iterates over a snapshot of
`d->Properties.keys()`. -/
def updateProperties (w : SettingsPanel) : SettingsPanel :=
  match w.Settings with
  | none => w
  | some _ => (w.Properties.map Prod.fst).foldl updatePropertiesStep w

/-- `ctkSettingsPanel::setSettings(settings)`: a pointer comparison guards
the update. -/
def setSettings (w : SettingsPanel) (r : Option SettingsRef) : SettingsPanel :=
  if w.Settings.map SettingsRef.id = r.map SettingsRef.id then w
  else updateProperties { w with Settings := r }

/-- `ctkSettingsPanel::defaultPropertyValue`. -/
def defaultPropertyValue (w : SettingsPanel) (key : String) : Variant :=
  match alook w.Properties key with
  | none => .invalid
  | some p => p.DefaultValue

/-- `ctkSettingsPanel::previousPropertyValue`. -/
def previousPropertyValue (w : SettingsPanel) (key : String) : Variant :=
  match alook w.Properties key with
  | none => .invalid
  | some p => p.PreviousValue

/-- `ctkSettingsPanel::propertyValue`. -/
def propertyValue (w : SettingsPanel) (key : String) : Variant :=
  match alook w.Properties key with
  | none => .invalid
  | some p => p.value w.heap

/-- `ctkSettingsPanel::changedSettings`: the keys whose `PreviousValue`
differs from the live value. -/
def changedSettings (w : SettingsPanel) : List String :=
  (w.Properties.filter (fun kp => kp.2.PreviousValue ≠ kp.2.value w.heap)).map Prod.fst

/-- `ctkSettingsPanel::applySettings`: commit every live value as the new
`PreviousValue`. -/
def applySettings (w : SettingsPanel) : SettingsPanel :=
  { w with Properties :=
      w.Properties.map (fun kp => (kp.1, { kp.2 with PreviousValue := kp.2.value w.heap })) }

/-- `ctkSettingsPanel::resetSettings`: push every `PreviousValue` back
through `setSetting`; the key snapshot is taken before the loop and the
`PreviousValue` is re-read from the current map at each iteration. -/
def resetSettings (w : SettingsPanel) : SettingsPanel :=
  (w.Properties.map Prod.fst).foldl
    (fun acc key =>
      setSetting acc key ((alook acc.Properties key).getD PropertyType.mkDefault).PreviousValue)
    w

/-- `ctkSettingsPanel::restoreDefaultSettings`. -/
def restoreDefaultSettings (w : SettingsPanel) : SettingsPanel :=
  (w.Properties.map Prod.fst).foldl
    (fun acc key =>
      setSetting acc key ((alook acc.Properties key).getD PropertyType.mkDefault).DefaultValue)
    w

/-! ### Concrete states used as test vectors

An object `0` with a declared `int` property `"p"` holding `1`, a panel
tracking it under key `"k"` with a store that also holds `1`, and
variants of that panel for the error and registration scenarios. -/

def exObj : Obj := ⟨[("p", .intV 1)], [("p", "int")]⟩

def exProp : PropertyType := ⟨some 0, "p", .intV 1, .intV 1, "", 0⟩

def exStore : Store := ⟨[("k", .intV 1)], 0⟩

def exPanel : SettingsPanel :=
  { Settings := some ⟨0, exStore⟩
  , Properties := [("k", exProp)]
  , SaveToSettingsWhenRegister := true
  , heap := [(0, exObj)]
  , emitted := []
  , warnings := [] }

/-- The same panel whose store reports error status `4`
(`QSettings::AccessError`). -/
def errPanel : SettingsPanel :=
  { exPanel with Settings := some ⟨0, ⟨[("k", .intV 1)], 4⟩⟩ }

/-- A panel over the same object with nothing registered yet and a store
holding `7` for `"k"`. -/
def freshPanel : SettingsPanel :=
  { Settings := some ⟨0, ⟨[("k", .intV 7)], 0⟩⟩
  , Properties := []
  , SaveToSettingsWhenRegister := true
  , heap := [(0, exObj)]
  , emitted := []
  , warnings := [] }

/-- An empty panel with an attached empty store. -/
def startPanel : SettingsPanel :=
  { Settings := some ⟨0, ⟨[], 0⟩⟩
  , Properties := []
  , SaveToSettingsWhenRegister := true
  , heap := []
  , emitted := []
  , warnings := [] }

/-- `startPanel` after `setSetting("k", 5)`: the store holds `5` and the
registry holds a default-inserted entry with a null target. -/
def orphanPanel : SettingsPanel := setSetting startPanel "k" (.intV 5)

/-- `orphanPanel` after attaching a different store that already contains
`"k" ↦ 5`: `updateProperties` records `5` as the orphan entry's
`PreviousValue` although its live value stays invalid. -/
def orphanPanel2 : SettingsPanel :=
  setSettings orphanPanel (some ⟨1, ⟨[("k", .intV 5)], 0⟩⟩)

/-- A panel over object `0` with an empty store and no registrations. -/
def regPanel0 : SettingsPanel := { startPanel with heap := [(0, exObj)] }

/-- `regPanel0` after a first `registerProperty("k", 0, "p")`: the live
value `1` is captured as default and previous value. -/
def regPanel1 : SettingsPanel := registerProperty regPanel0 "k" (some 0) "p" "" 0

/-- `regPanel1` after `setSetting("k", 2)` and a second
`registerProperty("k", 0, "p")`. -/
def regPanel2 : SettingsPanel :=
  registerProperty (setSetting regPanel1 "k" (.intV 2)) "k" (some 0) "p" "" 0

/-- An object with a declared `QStringList` property `"q"`. -/
def slObj : Obj := ⟨[("q", .strListV ["a"])], [("q", "QStringList")]⟩

def slProp : PropertyType := ⟨some 3, "q", .invalid, .invalid, "", 0⟩

/-! ### Association-list and heap lemmas -/

theorem alook_aset_self {κ β : Type} [DecidableEq κ] (l : List (κ × β)) (k : κ) (v : β) :
    alook (aset l k v) k = some v := by
  induction l with
  | nil => simp [aset, alook]
  | cons hd tl ih =>
    by_cases h : hd.1 = k
    · simp [aset, h, alook]
    · simp [aset, h, alook, ih]

theorem alook_aset_ne {κ β : Type} [DecidableEq κ] (l : List (κ × β)) (k k' : κ) (v : β)
    (h : k' ≠ k) : alook (aset l k v) k' = alook l k' := by
  have hk : ¬ k = k' := fun e => h e.symm
  induction l with
  | nil => simp [aset, alook, hk]
  | cons hd tl ih =>
    by_cases hh : hd.1 = k
    · have hk2 : ¬ hd.1 = k' := by rw [hh]; exact hk
      simp [aset, hh, alook, hk, hk2]
    · simp [aset, hh, alook, ih]

theorem alook_minsert_self {β : Type} (l : List (String × β)) (k : String) (v : β) :
    alook (minsert l k v) k = some v := by
  induction l with
  | nil => simp [minsert, alook]
  | cons hd tl ih =>
    by_cases h : k = hd.1
    · simp [minsert, h, alook]
    · have hk : ¬ hd.1 = k := fun e => h e.symm
      by_cases h2 : k < hd.1
      · simp [minsert, h, h2, alook]
      · simp [minsert, h, h2, alook, ih, hk]

theorem alook_minsert_ne {β : Type} (l : List (String × β)) (k k' : String) (v : β)
    (h : k' ≠ k) : alook (minsert l k v) k' = alook l k' := by
  have hk : ¬ k = k' := fun e => h e.symm
  induction l with
  | nil => simp [minsert, alook, hk]
  | cons hd tl ih =>
    by_cases hh : k = hd.1
    · have hk2 : ¬ hd.1 = k' := by rw [← hh]; exact hk
      simp [minsert, hh, alook, hk, hk2]
    · by_cases h2 : k < hd.1
      · simp [minsert, hh, h2, alook, hk]
      · simp [minsert, hh, h2, alook, ih]

theorem heapGet_heapSet_self (h : List (Nat × Obj)) (i : Nat) (o : Obj) :
    heapGet (heapSet h i o) i = o := by
  simp [heapGet, heapSet, alook_aset_self]

theorem heapGet_heapSet_ne (h : List (Nat × Obj)) (i j : Nat) (o : Obj) (hij : j ≠ i) :
    heapGet (heapSet h i o) j = heapGet h j := by
  simp [heapGet, heapSet, alook_aset_ne _ _ _ _ hij]

/-! ### `PropertyType` read/write lemmas -/

/-- Writing a value that escapes the `QStringList` normalization and then
reading it back yields the value itself. -/
theorem value_setValue_self (p : PropertyType) (h : List (Nat × Obj)) (v : Variant) (i : Nat)
    (ho : p.Object = some i) (hp : p.Property ≠ "")
    (hn : v.isValid = true ∨ p.declaredTypeName h ≠ some "QStringList") :
    p.value (p.setValue h v).1 = v := by
  have hnorm : ¬ (p.declaredTypeName h = some "QStringList" ∧ v.isValid = false) := by
    rcases hn with hn | hn
    · rintro ⟨-, hf⟩; rw [hn] at hf; cases hf
    · rintro ⟨hf, -⟩; exact hn hf
  simp [PropertyType.setValue, PropertyType.value, ho, hp, hnorm,
        heapGet_heapSet_self, Obj.setProperty, Obj.getProperty, alook_aset_self]

/-- The QTBUG-19823 workaround: an invalid value written to a
`QStringList`-typed property reads back as the empty string list. -/
theorem value_setValue_norm (p : PropertyType) (h : List (Nat × Obj)) (v : Variant) (i : Nat)
    (ho : p.Object = some i) (hp : p.Property ≠ "")
    (hv : v.isValid = false) (ht : p.declaredTypeName h = some "QStringList") :
    p.value (p.setValue h v).1 = .strListV [] := by
  simp [PropertyType.setValue, PropertyType.value, ho, hp, hv, ht,
        heapGet_heapSet_self, Obj.setProperty, Obj.getProperty, alook_aset_self]

/-- A write through one tracked property leaves the live value of any
tracked property with a different (object, property-name) pair unchanged. -/
theorem value_setValue_frame (p p2 : PropertyType) (h : List (Nat × Obj)) (v : Variant)
    (hne : p2.Object ≠ p.Object ∨ p2.Property ≠ p.Property) :
    p2.value (p.setValue h v).1 = p2.value h := by
  rcases hop : p.Object with - | i
  · simp [PropertyType.setValue, hop]
  rcases hpp : decide (p.Property = "") with - | -
  · rcases ho2 : p2.Object with - | j
    · simp [PropertyType.value, ho2]
    · by_cases hj : j = i
      · subst hj
        have hprop : p2.Property ≠ p.Property := by
          rcases hne with hne | hne
          · exact absurd (ho2.trans hop.symm) hne
          · exact hne
        simp only [PropertyType.setValue, hop, of_decide_eq_false hpp, if_neg,
                   PropertyType.value, ho2]
        by_cases hp2 : p2.Property = ""
        · simp [hp2]
        · simp [hp2, heapGet_heapSet_self, Obj.setProperty, Obj.getProperty,
                alook_aset_ne _ _ _ _ hprop]
      · simp only [PropertyType.setValue, hop, of_decide_eq_false hpp, if_neg,
                   PropertyType.value, ho2]
        by_cases hp2 : p2.Property = ""
        · simp [hp2]
        · simp [hp2, heapGet_heapSet_ne _ _ _ _ hj, Obj.setProperty]
  · simp [PropertyType.setValue, hop, of_decide_eq_true hpp]

/-- Declared meta-properties are untouched by property writes. -/
theorem declaredTypeName_setValue (p p2 : PropertyType) (h : List (Nat × Obj)) (v : Variant) :
    p2.declaredTypeName (p.setValue h v).1 = p2.declaredTypeName h := by
  rcases hop : p.Object with - | i
  · simp [PropertyType.setValue, hop]
  by_cases hpp : p.Property = ""
  · simp [PropertyType.setValue, hop, hpp]
  rcases ho2 : p2.Object with - | j
  · simp [PropertyType.declaredTypeName, ho2]
  by_cases hj : j = i
  · subst hj
    simp [PropertyType.setValue, hop, hpp, PropertyType.declaredTypeName, ho2,
          heapGet_heapSet_self, Obj.setProperty]
  · simp [PropertyType.setValue, hop, hpp, PropertyType.declaredTypeName, ho2,
          heapGet_heapSet_ne _ _ _ _ hj, Obj.setProperty]

/-! ### `setSetting` characterizations -/

/-- `setSetting` on a registered key: store updated, live property written
through the entry, registry entries untouched, warning/emission per status
and old store value. -/
theorem setSetting_eq (w : SettingsPanel) (r : SettingsRef) (key : String) (v : Variant)
    (p : PropertyType) (hs : w.Settings = some r) (hl : alook w.Properties key = some p) :
    setSetting w key v =
      { w with
        Settings := some { r with store := r.store.setValue key v },
        heap := (p.setValue w.heap v).1,
        warnings := if r.store.status ≠ 0 then w.warnings ++ [(r.store.status, key)]
                    else w.warnings,
        emitted := if r.store.value key ≠ v then w.emitted ++ [(key, v)] else w.emitted } := by
  simp [setSetting, hs, hl, Store.setValue]

/-- `setSetting` on an unregistered key: a default entry is inserted
(`QMap::operator[]`), whose null object makes the live write a no-op. -/
theorem setSetting_eq_new (w : SettingsPanel) (r : SettingsRef) (key : String) (v : Variant)
    (hs : w.Settings = some r) (hl : alook w.Properties key = none) :
    setSetting w key v =
      { w with
        Settings := some { r with store := r.store.setValue key v },
        Properties := minsert w.Properties key PropertyType.mkDefault,
        warnings := if r.store.status ≠ 0 then w.warnings ++ [(r.store.status, key)]
                    else w.warnings,
        emitted := if r.store.value key ≠ v then w.emitted ++ [(key, v)] else w.emitted } := by
  simp [setSetting, hs, hl, Store.setValue, alook_minsert_self,
        PropertyType.setValue, PropertyType.mkDefault]

/-! ### Claim theorems -/

/-- C8: writing through `PropertyType::setValue` on a tracked property
whose declared type is `QStringList` turns an invalid/unset value into the
empty string list, while on a property of any other declared type every
value is written to the live object unchanged. -/
theorem C8_setValue_stringlist_normalization (p : PropertyType) (h : List (Nat × Obj)) (i : Nat)
    (ho : p.Object = some i) (hp : p.Property ≠ "") :
    (p.declaredTypeName h = some "QStringList" →
      p.value (p.setValue h .invalid).1 = .strListV []) ∧
    (∀ v : Variant, p.declaredTypeName h ≠ some "QStringList" →
      p.value (p.setValue h v).1 = v) := by
  constructor
  · intro ht
    exact value_setValue_norm p h .invalid i ho hp rfl ht
  · intro v ht
    exact value_setValue_self p h v i ho hp (Or.inr ht)

/-- C8 witness: the `QStringList`-typed property `"q"` of object `3`
normalizes an invalid write to `[]`, and the `int`-typed property `"p"` of
object `0` passes an invalid write through unchanged. -/
theorem C8_setValue_stringlist_normalization_witness :
    slProp.value (slProp.setValue [(3, slObj)] .invalid).1 = .strListV [] ∧
    exProp.value (exProp.setValue [(0, exObj)] .invalid).1 = .invalid :=
  ⟨(C8_setValue_stringlist_normalization slProp [(3, slObj)] 3 rfl (by decide)).1 rfl,
   (C8_setValue_stringlist_normalization exProp [(0, exObj)] 0 rfl (by decide)).2
     .invalid (by decide)⟩

/-- C6: with a store attached, `setSetting(key, v)` emits
`settingChanged(key, v)` exactly when `v` differs (by `QVariant` value
equality) from the value the store reported for `key` just before the
write. -/
theorem C6_setSetting_emits_iff_store_differs (w : SettingsPanel) (r : SettingsRef)
    (key : String) (v : Variant) (hs : w.Settings = some r) :
    (setSetting w key v).emitted =
      (if r.store.value key ≠ v then w.emitted ++ [(key, v)] else w.emitted) := by
  rcases hl : alook w.Properties key with - | p
  · rw [setSetting_eq_new w r key v hs hl]
  · rw [setSetting_eq w r key v p hs hl]

/-- C6 witness: on `exPanel` (store holds `1` for `"k"`), writing `1`
emits nothing and writing `2` emits `("k", 2)`. -/
theorem C6_setSetting_emits_iff_store_differs_witness :
    (setSetting exPanel "k" (.intV 1)).emitted = [] ∧
    (setSetting exPanel "k" (.intV 2)).emitted = [("k", .intV 2)] := by
  constructor
  · rw [C6_setSetting_emits_iff_store_differs exPanel ⟨0, exStore⟩ "k" (.intV 1) rfl]
    decide
  · rw [C6_setSetting_emits_iff_store_differs exPanel ⟨0, exStore⟩ "k" (.intV 2) rfl]
    decide

/-- C7: when the attached store reports a non-ok status, `setSetting`
appends a warning carrying that status code and the key, and the new value
is still written onto the live object's property; the operation returns
normally (it is a total state transformer with no error result). -/
theorem C7_store_error_warns_and_completes (w : SettingsPanel) (r : SettingsRef)
    (key : String) (v : Variant) (p : PropertyType) (i : Nat)
    (hs : w.Settings = some r) (he : r.store.status ≠ 0)
    (hl : alook w.Properties key = some p)
    (ho : p.Object = some i) (hp : p.Property ≠ "")
    (hn : v.isValid = true ∨ p.declaredTypeName w.heap ≠ some "QStringList") :
    (setSetting w key v).warnings = w.warnings ++ [(r.store.status, key)] ∧
    propertyValue (setSetting w key v) key = v := by
  rw [setSetting_eq w r key v p hs hl]
  constructor
  · simp [he]
  · simp only [propertyValue, hl]
    exact value_setValue_self p w.heap v i ho hp hn

/-- C7 witness: on `errPanel` (store status `4`), `setSetting("k", 2)`
logs `(4, "k")` and the live property still becomes `2`. -/
theorem C7_store_error_warns_and_completes_witness :
    (setSetting errPanel "k" (.intV 2)).warnings = [(4, "k")] ∧
    propertyValue (setSetting errPanel "k" (.intV 2)) "k" = .intV 2 :=
  C7_store_error_warns_and_completes errPanel ⟨0, ⟨[("k", .intV 1)], 4⟩⟩ "k" (.intV 2)
    exProp 0 rfl (by decide) rfl rfl (by decide) (Or.inl rfl)

/-- C9: `setSetting(key, v)` on a never-registered key with a store
attached still writes `v` to the store, emits `settingChanged(key, v)`
exactly when `v` differs from the previously stored value, and
default-inserts a registry entry with a null target object — after which
`propertyValue(key)` is the invalid value. -/
theorem C9_setSetting_unregistered_key (w : SettingsPanel) (r : SettingsRef)
    (key : String) (v : Variant)
    (hs : w.Settings = some r) (hu : alook w.Properties key = none) :
    alook (setSetting w key v).Properties key = some PropertyType.mkDefault ∧
    (setSetting w key v).Settings = some { r with store := r.store.setValue key v } ∧
    Store.value (r.store.setValue key v) key = v ∧
    (setSetting w key v).emitted =
      (if r.store.value key ≠ v then w.emitted ++ [(key, v)] else w.emitted) ∧
    propertyValue (setSetting w key v) key = .invalid := by
  rw [setSetting_eq_new w r key v hs hu]
  refine ⟨alook_minsert_self _ _ _, rfl, ?_, rfl, ?_⟩
  · simp [Store.value, Store.setValue, alook_aset_self]
  · simp [propertyValue, alook_minsert_self, PropertyType.mkDefault, PropertyType.value]

/-- C9 witness: `setSetting("k", 5)` on the empty `startPanel` stores `5`,
emits `("k", 5)`, inserts the default (null-target) entry for `"k"`, and
`propertyValue "k"` stays invalid. -/
theorem C9_setSetting_unregistered_key_witness :
    alook (setSetting startPanel "k" (.intV 5)).Properties "k" = some PropertyType.mkDefault ∧
    (setSetting startPanel "k" (.intV 5)).Settings =
      some ⟨0, ⟨[("k", .intV 5)], 0⟩⟩ ∧
    propertyValue (setSetting startPanel "k" (.intV 5)) "k" = .invalid ∧
    (setSetting startPanel "k" (.intV 5)).emitted = [("k", .intV 5)] := by
  have h := C9_setSetting_unregistered_key startPanel ⟨0, ⟨[], 0⟩⟩ "k" (.intV 5) rfl rfl
  refine ⟨h.1, ?_, h.2.2.2.2, ?_⟩
  · rw [h.2.1]; decide
  · rw [h.2.2.2.1]; decide

/-! ### Registry-preservation helpers -/

/-- `PropertyType::value` ignores `PreviousValue`. -/
theorem value_update_previous (p : PropertyType) (x : Variant) (h : List (Nat × Obj)) :
    PropertyType.value { p with PreviousValue := x } h = p.value h := rfl

/-- `setSetting` never rewrites an existing registry entry. -/
theorem setSetting_Properties_of_isSome (w : SettingsPanel) (key : String) (v : Variant)
    (h : (alook w.Properties key).isSome = true) :
    (setSetting w key v).Properties = w.Properties := by
  rcases hs : w.Settings with - | r
  · simp [setSetting, hs]
  · simp [setSetting, hs, h]

/-- On a registered key, `updateSetting` is `setSetting` at the live
value. -/
theorem updateSetting_eq (w : SettingsPanel) (key : String) (r : SettingsRef)
    (e : PropertyType) (hs : w.Settings = some r) (hl : alook w.Properties key = some e) :
    updateSetting w key = setSetting w key (e.value w.heap) := by
  simp only [updateSetting, hs, hl, Option.isSome_some, if_true]
  rw [← hs]
  rfl

/-- `updateSetting` never rewrites an existing registry entry. -/
theorem updateSetting_Properties_of_isSome (w : SettingsPanel) (key : String)
    (h : (alook w.Properties key).isSome = true) :
    (updateSetting w key).Properties = w.Properties := by
  rcases hs : w.Settings with - | r
  · simp [updateSetting, hs]
  · rcases ho : alook w.Properties key with - | e
    · rw [ho] at h; cases h
    · rw [updateSetting_eq w key r e hs ho]
      exact setSetting_Properties_of_isSome w key _ h

/-- `registerProperty` in the store-override case, flattened. -/
theorem registerProperty_contains_eq (w : SettingsPanel) (r : SettingsRef) (key : String)
    (o : Option Nat) (prop lbl : String) (opts : Nat)
    (hs : w.Settings = some r) (hc : r.store.contains key = true) :
    registerProperty w key o prop lbl opts =
      (if w.SaveToSettingsWhenRegister then
        updateSetting
          { w with
            Properties := minsert w.Properties key
              ⟨o, prop, r.store.value key,
               PropertyType.value ⟨o, prop, .invalid, .invalid, lbl, opts⟩ w.heap, lbl, opts⟩,
            heap := (PropertyType.setValue
                      ⟨o, prop, PropertyType.value ⟨o, prop, .invalid, .invalid, lbl, opts⟩ w.heap,
                       PropertyType.value ⟨o, prop, .invalid, .invalid, lbl, opts⟩ w.heap,
                       lbl, opts⟩
                      w.heap (r.store.value key)).1 } key
      else
        { w with
          Properties := minsert w.Properties key
            ⟨o, prop, r.store.value key,
             PropertyType.value ⟨o, prop, .invalid, .invalid, lbl, opts⟩ w.heap, lbl, opts⟩,
          heap := (PropertyType.setValue
                    ⟨o, prop, PropertyType.value ⟨o, prop, .invalid, .invalid, lbl, opts⟩ w.heap,
                     PropertyType.value ⟨o, prop, .invalid, .invalid, lbl, opts⟩ w.heap,
                     lbl, opts⟩
                    w.heap (r.store.value key)).1 }) := by
  simp [registerProperty, hs, hc]

/-- `registerProperty` when the store has no value for the key (or no
store), flattened. -/
theorem registerProperty_fresh_eq (w : SettingsPanel) (key : String)
    (o : Option Nat) (prop lbl : String) (opts : Nat)
    (hnc : ∀ r, w.Settings = some r → r.store.contains key = false) :
    registerProperty w key o prop lbl opts =
      (if w.SaveToSettingsWhenRegister then
        updateSetting
          { w with
            Properties := minsert w.Properties key
              ⟨o, prop, PropertyType.value ⟨o, prop, .invalid, .invalid, lbl, opts⟩ w.heap,
               PropertyType.value ⟨o, prop, .invalid, .invalid, lbl, opts⟩ w.heap,
               lbl, opts⟩ } key
      else
        { w with
          Properties := minsert w.Properties key
            ⟨o, prop, PropertyType.value ⟨o, prop, .invalid, .invalid, lbl, opts⟩ w.heap,
             PropertyType.value ⟨o, prop, .invalid, .invalid, lbl, opts⟩ w.heap,
             lbl, opts⟩ }) := by
  rcases hs : w.Settings with - | r
  · simp [registerProperty, hs]
  · simp [registerProperty, hs, hnc r hs]

/-! ### Association-list membership helpers -/

theorem mem_of_alook {κ β : Type} [DecidableEq κ] (l : List (κ × β)) (key : κ) (p : β)
    (h : alook l key = some p) : (key, p) ∈ l := by
  induction l with
  | nil => cases h
  | cons hd tl ih =>
    by_cases hk : hd.1 = key
    · rw [alook, if_pos hk] at h
      cases h
      rw [← hk, Prod.mk.eta]
      exact List.mem_cons_self _ _
    · rw [alook, if_neg hk] at h
      exact List.mem_cons_of_mem _ (ih h)

theorem alook_of_mem_nodup {κ β : Type} [DecidableEq κ] (l : List (κ × β)) (key : κ) (p : β)
    (hnd : (l.map Prod.fst).Nodup) (hm : (key, p) ∈ l) : alook l key = some p := by
  induction l with
  | nil => cases hm
  | cons hd tl ih =>
    rw [List.map_cons, List.nodup_cons] at hnd
    rcases List.mem_cons.mp hm with hm | hm
    · rw [← hm, alook, if_pos rfl]
    · have hk : hd.1 ≠ key := by
        intro he
        exact hnd.1 (he ▸ (List.mem_map.mpr ⟨(key, p), hm, rfl⟩))
      rw [alook, if_neg hk]
      exact ih hnd.2 hm

/-- Membership in `changedSettings` as an `alook` statement (for maps with
no duplicate keys, which `QMap` guarantees). -/
theorem changed_mem_iff (l : List (String × PropertyType)) (h : List (Nat × Obj)) (key : String)
    (hnd : (l.map Prod.fst).Nodup) :
    key ∈ (l.filter (fun kp => kp.2.PreviousValue ≠ kp.2.value h)).map Prod.fst ↔
      ∃ p, alook l key = some p ∧ p.PreviousValue ≠ p.value h := by
  constructor
  · intro hmem
    obtain ⟨kp, hkp, hfst⟩ := List.mem_map.mp hmem
    obtain ⟨hmeml, hpred⟩ := List.mem_filter.mp hkp
    refine ⟨kp.2, ?_, by simpa using hpred⟩
    have : (key, kp.2) ∈ l := by
      have : kp = (key, kp.2) := by rw [← hfst]
      exact this ▸ hmeml
    exact alook_of_mem_nodup l key kp.2 hnd this
  · rintro ⟨p, hal, hne⟩
    exact List.mem_map.mpr
      ⟨(key, p), List.mem_filter.mpr ⟨mem_of_alook l key p hal, by simpa⟩, rfl⟩

/-- After replacing every entry's `PreviousValue` by its live value, the
changed-keys filter keeps nothing. -/
theorem applyAll_filter_nil (l : List (String × PropertyType)) (h : List (Nat × Obj)) :
    ((l.map (fun kp => (kp.1, { kp.2 with PreviousValue := kp.2.value h }))).filter
      (fun kp => kp.2.PreviousValue ≠ kp.2.value h)) = [] := by
  refine List.filter_eq_nil_iff.mpr ?_
  intro kp hkp
  obtain ⟨kp0, -, rfl⟩ := List.mem_map.mp hkp
  simp [value_update_previous]

/-- C2: `changedSettings()` holds exactly the registered keys whose live
property value differs (by value equality) from the recorded
`PreviousValue`, and immediately after `applySettings()` it is empty. -/
theorem C2_changedSettings_exact_and_empty_after_apply (w : SettingsPanel) (key : String)
    (hnd : (w.Properties.map Prod.fst).Nodup) :
    (key ∈ changedSettings w ↔
      ∃ p, alook w.Properties key = some p ∧ p.PreviousValue ≠ p.value w.heap) ∧
    changedSettings (applySettings w) = [] := by
  constructor
  · exact changed_mem_iff w.Properties w.heap key hnd
  · simp only [changedSettings, applySettings]
    rw [applyAll_filter_nil w.Properties w.heap]
    rfl

/-- C2 witness: after `setSetting(exPanel, "k", 2)` the key `"k"` is
changed (live `2` vs previous `1`), and `applySettings` empties the
changed set. -/
theorem C2_changedSettings_exact_and_empty_after_apply_witness :
    ("k" ∈ changedSettings (setSetting exPanel "k" (.intV 2)) ↔
      ∃ p, alook (setSetting exPanel "k" (.intV 2)).Properties "k" = some p ∧
        p.PreviousValue ≠ p.value (setSetting exPanel "k" (.intV 2)).heap) ∧
    changedSettings (applySettings (setSetting exPanel "k" (.intV 2))) = [] :=
  C2_changedSettings_exact_and_empty_after_apply (setSetting exPanel "k" (.intV 2)) "k"
    (by decide)

/-- C1 counterexample: on `exPanel` (key `"k"` registered, previous value
`1`), `setSetting("k", 2)` makes `propertyValue` equal `2` but leaves
`previousPropertyValue` at `1`: the claim `previousPropertyValue(key) = v`
is false. -/
theorem C1_setSetting_previous_counterexample :
    propertyValue (setSetting exPanel "k" (.intV 2)) "k" = .intV 2 ∧
    previousPropertyValue (setSetting exPanel "k" (.intV 2)) "k" = .intV 1 ∧
    ¬ previousPropertyValue (setSetting exPanel "k" (.intV 2)) "k" = .intV 2 := by
  decide

/-- C1 (amended): with a store attached, for a registered key bound to a
non-null object with a non-empty property name, and a value not subject to
the `QStringList` normalization, `setSetting(key, v)` makes
`propertyValue(key) = v` while `previousPropertyValue(key)` is unchanged
(`setSetting` never touches `PreviousValue`). -/
theorem C1_setSetting_amended (w : SettingsPanel) (r : SettingsRef) (key : String)
    (v : Variant) (p : PropertyType) (i : Nat)
    (hs : w.Settings = some r) (hl : alook w.Properties key = some p)
    (ho : p.Object = some i) (hp : p.Property ≠ "")
    (hn : v.isValid = true ∨ p.declaredTypeName w.heap ≠ some "QStringList") :
    propertyValue (setSetting w key v) key = v ∧
    previousPropertyValue (setSetting w key v) key = previousPropertyValue w key := by
  rw [setSetting_eq w r key v p hs hl]
  constructor
  · simp only [propertyValue, hl]
    exact value_setValue_self p w.heap v i ho hp hn
  · simp [previousPropertyValue, hl]

/-- C1 witness: instance of the amended claim on `exPanel`. -/
theorem C1_setSetting_amended_witness :
    propertyValue (setSetting exPanel "k" (.intV 2)) "k" = .intV 2 ∧
    previousPropertyValue (setSetting exPanel "k" (.intV 2)) "k" =
      previousPropertyValue exPanel "k" :=
  C1_setSetting_amended exPanel ⟨0, exStore⟩ "k" (.intV 2) exProp 0
    rfl rfl rfl (by decide) (Or.inl rfl)

/-- C3 counterexample: the first registration on `regPanel0` captures
default `1`, but after `setSetting("k", 2)` a second
`registerProperty("k", 0, "p")` recaptures the default from the new live
value `2` — the default is not immutable under re-registration. -/
theorem C3_default_recaptured_counterexample :
    defaultPropertyValue regPanel1 "k" = .intV 1 ∧
    defaultPropertyValue regPanel2 "k" = .intV 2 := by
  decide

/-- C3 (amended): every `registerProperty(key, o, prop)` call — not only
the first — captures `DefaultValue` from the live value of `(o, prop)` at
call time (last registration wins), while `setSetting` never rewrites any
existing registry entry (so non-registration operations leave recorded
defaults intact). -/
theorem C3_default_recaptured_amended (w : SettingsPanel) (key : String)
    (o : Option Nat) (prop lbl : String) (opts : Nat) :
    defaultPropertyValue (registerProperty w key o prop lbl opts) key =
      PropertyType.value ⟨o, prop, .invalid, .invalid, lbl, opts⟩ w.heap ∧
    ∀ key2 v, (alook w.Properties key2).isSome = true →
      (setSetting w key2 v).Properties = w.Properties := by
  constructor
  · have core : ∀ (em : Option SettingsRef) (P : List (String × PropertyType))
        (sv : Bool) (hp2 : List (Nat × Obj)) (emit : List (String × Variant))
        (warn : List (Nat × String)) (e : PropertyType) (b : Bool),
        defaultPropertyValue
          (if b = true then updateSetting ⟨em, minsert P key e, sv, hp2, emit, warn⟩ key
           else ⟨em, minsert P key e, sv, hp2, emit, warn⟩) key = e.DefaultValue := by
      intro em P sv hp2 emit warn e b
      have hl : alook (minsert P key e) key = some e := alook_minsert_self _ _ _
      cases b
      · rw [if_neg (by simp)]
        simp [defaultPropertyValue, hl]
      · rw [if_pos rfl]
        have hP2 := updateSetting_Properties_of_isSome
          ⟨em, minsert P key e, sv, hp2, emit, warn⟩ key (by simp [hl])
        simp [defaultPropertyValue, hP2, hl]
    rcases hs : w.Settings with - | r
    · rw [registerProperty_fresh_eq w key o prop lbl opts
        (by intro r' hr; rw [hs] at hr; cases hr)]
      exact core _ _ _ _ _ _ _ _
    · by_cases hc : r.store.contains key = true
      · rw [registerProperty_contains_eq w r key o prop lbl opts hs hc]
        exact core _ _ _ _ _ _ _ _
      · rw [registerProperty_fresh_eq w key o prop lbl opts
          (by intro r' hr; rw [hs] at hr; cases hr; exact Bool.eq_false_iff.mpr hc)]
        exact core _ _ _ _ _ _ _ _
  · intro key2 v h
    exact setSetting_Properties_of_isSome w key2 v h

/-- C3 witness: the amended claim evaluated on the second registration of
`"k"` and on a `setSetting` over the registered panel. -/
theorem C3_default_recaptured_amended_witness :
    defaultPropertyValue regPanel2 "k" = .intV 2 ∧
    (setSetting regPanel1 "k" (.intV 9)).Properties = regPanel1.Properties := by
  have h := C3_default_recaptured_amended (setSetting regPanel1 "k" (.intV 2)) "k"
    (some 0) "p" "" 0
  have h2 := C3_default_recaptured_amended regPanel1 "k" (some 0) "p" "" 0
  constructor
  · show defaultPropertyValue
      (registerProperty (setSetting regPanel1 "k" (.intV 2)) "k" (some 0) "p" "" 0) "k" =
      .intV 2
    rw [h.1]
    decide
  · exact h2.2 "k" (.intV 9) (by decide)

/-- C4: at `registerProperty(key, o, prop)` with a store attached that
already contains a (valid) value `v` for `key`, the stored value is
written onto the live property and becomes the recorded previous value:
both `previousPropertyValue(key)` and `propertyValue(key)` equal `v`
afterwards. -/
theorem C4_registerProperty_store_precedence (w : SettingsPanel) (r : SettingsRef)
    (key : String) (i : Nat) (prop lbl : String) (opts : Nat) (v : Variant)
    (hs : w.Settings = some r) (hc : r.store.contains key = true)
    (hv : r.store.value key = v) (hvalid : v.isValid = true) (hp : prop ≠ "") :
    previousPropertyValue (registerProperty w key (some i) prop lbl opts) key = v ∧
    propertyValue (registerProperty w key (some i) prop lbl opts) key = v := by
  suffices h : ∀ (W : SettingsPanel) (E : PropertyType),
      W.Settings = some r →
      alook W.Properties key = some E →
      E.Object = some i → E.Property = prop →
      E.PreviousValue = v → E.value W.heap = v →
      previousPropertyValue
        (if w.SaveToSettingsWhenRegister = true then updateSetting W key else W) key = v ∧
      propertyValue
        (if w.SaveToSettingsWhenRegister = true then updateSetting W key else W) key = v by
    rw [registerProperty_contains_eq w r key (some i) prop lbl opts hs hc]
    exact h _ _ hs (alook_minsert_self _ _ _) rfl rfl hv
      ((value_setValue_self
          ⟨some i, prop,
           PropertyType.value ⟨some i, prop, .invalid, .invalid, lbl, opts⟩ w.heap,
           PropertyType.value ⟨some i, prop, .invalid, .invalid, lbl, opts⟩ w.heap,
           lbl, opts⟩
          w.heap (r.store.value key) i rfl hp
          (Or.inl (by rw [hv]; exact hvalid))).trans hv)
  intro W E hsW hlW hoW hpW hprevW hvalW
  cases hsv : w.SaveToSettingsWhenRegister
  · rw [if_neg (by simp)]
    constructor
    · simp [previousPropertyValue, hlW, hprevW]
    · simp only [propertyValue, hlW]
      exact hvalW
  · rw [if_pos rfl]
    rw [updateSetting_eq W key r E hsW hlW, hvalW, setSetting_eq W r key v E hsW hlW]
    constructor
    · simp [previousPropertyValue, hlW, hprevW]
    · simp only [propertyValue, hlW]
      exact value_setValue_self E W.heap v i hoW (by rw [hpW]; exact hp) (Or.inl hvalid)

/-- C4 witness: registering `"k"` on `freshPanel` (store holds `7`, live
value `1`) overrides both the live property and the previous value with
the stored `7`. -/
theorem C4_registerProperty_store_precedence_witness :
    previousPropertyValue (registerProperty freshPanel "k" (some 0) "p" "" 0) "k" = .intV 7 ∧
    propertyValue (registerProperty freshPanel "k" (some 0) "p" "" 0) "k" = .intV 7 :=
  C4_registerProperty_store_precedence freshPanel ⟨0, ⟨[("k", .intV 7)], 0⟩⟩ "k" 0 "p" "" 0
    (.intV 7) rfl rfl rfl rfl (by decide)

/-! ### The `resetSettings` loop -/

/-- A key occurring in the key list of an association list has a
successful lookup. -/
theorem alook_isSome_of_mem_keys {κ β : Type} [DecidableEq κ] (l : List (κ × β)) (k : κ)
    (h : k ∈ l.map Prod.fst) : ∃ p, alook l k = some p := by
  induction l with
  | nil => cases h
  | cons hd tl ih =>
    by_cases hh : hd.1 = k
    · exact ⟨hd.2, by rw [alook, if_pos hh]⟩
    · have hmem : k ∈ tl.map Prod.fst := by
        rw [List.map_cons] at h
        rcases List.mem_cons.mp h with h1 | h1
        · exact absurd h1.symm hh
        · exact h1
      obtain ⟨p, hp⟩ := ih hmem
      exact ⟨p, by rw [alook, if_neg hh]; exact hp⟩

/-- Invariant of the `resetSettings` fold: the registry never changes, the
panel keeps a store, and after the loop every processed key's live value
equals its `PreviousValue` while unprocessed slots are untouched —
provided every entry is writable (non-null object, non-empty property
name), previous values are valid (no `QStringList` normalization), and
distinct keys track distinct (object, property) slots. -/
theorem reset_loop (P : List (String × PropertyType))
    (hw : ∀ kp ∈ P, kp.2.Object.isSome = true ∧ kp.2.Property ≠ "" ∧
      kp.2.PreviousValue.isValid = true)
    (hdist : ∀ kp1 ∈ P, ∀ kp2 ∈ P, kp1.1 ≠ kp2.1 →
      kp1.2.Object ≠ kp2.2.Object ∨ kp1.2.Property ≠ kp2.2.Property) :
    ∀ (ks : List String) (acc : SettingsPanel) (r' : SettingsRef),
      acc.Settings = some r' →
      acc.Properties = P →
      (∀ k, k ∈ ks → k ∈ P.map Prod.fst) →
      (ks.foldl
        (fun a key =>
          setSetting a key ((alook a.Properties key).getD PropertyType.mkDefault).PreviousValue)
        acc).Properties = P ∧
      ∀ k p, alook P k = some p →
        ((k ∈ ks →
          p.value (ks.foldl
            (fun a key =>
              setSetting a key
                ((alook a.Properties key).getD PropertyType.mkDefault).PreviousValue)
            acc).heap = p.PreviousValue) ∧
         (k ∉ ks →
          p.value (ks.foldl
            (fun a key =>
              setSetting a key
                ((alook a.Properties key).getD PropertyType.mkDefault).PreviousValue)
            acc).heap = p.value acc.heap)) := by
  intro ks
  induction ks with
  | nil =>
    intro acc r' hs hP hmem
    exact ⟨hP, fun k p hal => ⟨fun hk => absurd hk (List.not_mem_nil k), fun _ => rfl⟩⟩
  | cons k0 rest ih =>
    intro acc r' hs hP hmem
    have hk0P : k0 ∈ P.map Prod.fst := hmem k0 (List.mem_cons_self _ _)
    obtain ⟨e0, he0⟩ := alook_isSome_of_mem_keys P k0 hk0P
    have hmem0 : (k0, e0) ∈ P := mem_of_alook P k0 e0 he0
    obtain ⟨ho0, hp0, hv0⟩ := hw (k0, e0) hmem0
    obtain ⟨i0, hi0⟩ := Option.isSome_iff_exists.mp ho0
    have hstep : setSetting acc k0 ((alook acc.Properties k0).getD PropertyType.mkDefault).PreviousValue =
        { acc with
          Settings := some { r' with store := r'.store.setValue k0 e0.PreviousValue },
          heap := (e0.setValue acc.heap e0.PreviousValue).1,
          warnings := if r'.store.status ≠ 0 then acc.warnings ++ [(r'.store.status, k0)]
                      else acc.warnings,
          emitted := if r'.store.value k0 ≠ e0.PreviousValue then
                       acc.emitted ++ [(k0, e0.PreviousValue)]
                     else acc.emitted } := by
      rw [show (alook acc.Properties k0).getD PropertyType.mkDefault = e0 by
        rw [hP, he0]; rfl]
      exact setSetting_eq acc r' k0 e0.PreviousValue e0 hs (by rw [hP]; exact he0)
    rw [List.foldl_cons, hstep]
    have ihres := ih
      { acc with
        Settings := some { r' with store := r'.store.setValue k0 e0.PreviousValue },
        heap := (e0.setValue acc.heap e0.PreviousValue).1,
        warnings := if r'.store.status ≠ 0 then acc.warnings ++ [(r'.store.status, k0)]
                    else acc.warnings,
        emitted := if r'.store.value k0 ≠ e0.PreviousValue then
                     acc.emitted ++ [(k0, e0.PreviousValue)]
                   else acc.emitted }
      { r' with store := r'.store.setValue k0 e0.PreviousValue }
      rfl hP (fun k hk => hmem k (List.mem_cons_of_mem _ hk))
    refine ⟨ihres.1, fun k p hal => ⟨?_, ?_⟩⟩
    · intro hk
      by_cases hkrest : k ∈ rest
      · exact (ihres.2 k p hal).1 hkrest
      · have hkk0 : k = k0 := by
          rcases List.mem_cons.mp hk with h | h
          · exact h
          · exact absurd h hkrest
        subst hkk0
        have hpe : p = e0 := by
          rw [he0] at hal
          cases hal
          rfl
        subst hpe
        rw [(ihres.2 k p hal).2 hkrest]
        exact value_setValue_self p acc.heap p.PreviousValue i0 hi0 hp0 (Or.inl hv0)
    · intro hk
      have hkrest : k ∉ rest := fun h => hk (List.mem_cons_of_mem _ h)
      have hkk0 : k ≠ k0 := fun h => hk (h ▸ List.mem_cons_self _ _)
      rw [(ihres.2 k p hal).2 hkrest]
      exact value_setValue_frame e0 p acc.heap e0.PreviousValue
        (hdist (k, p) (mem_of_alook P k p hal) (k0, e0) hmem0 hkk0)

/-- C5 counterexample: on the reachable state `orphanPanel2` (key `"k"`
was written through `setSetting` before ever being registered, then a new
store containing `"k" ↦ 5` was attached), `resetSettings()` followed by
`changedSettings()` yields `["k"]`, not the empty set: the orphan entry's
`PreviousValue` is `5` but its live value stays invalid because its target
object is null. -/
theorem C5_reset_then_changed_counterexample :
    changedSettings (resetSettings orphanPanel2) = ["k"] := by
  decide

/-- C5 (amended): `resetSettings()` followed by `changedSettings()`
yields the empty set provided a store is attached and every registry
entry has a non-null target object, a non-empty property name, a valid
`PreviousValue`, and distinct keys track distinct (object, property)
slots. -/
theorem C5_reset_then_changed_amended (w : SettingsPanel) (r : SettingsRef)
    (hs : w.Settings = some r)
    (hnd : (w.Properties.map Prod.fst).Nodup)
    (hw : ∀ kp ∈ w.Properties, kp.2.Object.isSome = true ∧ kp.2.Property ≠ "" ∧
      kp.2.PreviousValue.isValid = true)
    (hdist : ∀ kp1 ∈ w.Properties, ∀ kp2 ∈ w.Properties, kp1.1 ≠ kp2.1 →
      kp1.2.Object ≠ kp2.2.Object ∨ kp1.2.Property ≠ kp2.2.Property) :
    changedSettings (resetSettings w) = [] := by
  have hloop := reset_loop w.Properties hw hdist (w.Properties.map Prod.fst) w r hs rfl
    (fun k hk => hk)
  have hP : (resetSettings w).Properties = w.Properties := hloop.1
  show ((resetSettings w).Properties.filter
    (fun kp => kp.2.PreviousValue ≠ kp.2.value (resetSettings w).heap)).map Prod.fst = []
  rw [hP]
  rw [List.filter_eq_nil_iff.mpr ?_]
  · rfl
  intro kp hkp
  have hmemk : (kp.1, kp.2) ∈ w.Properties := Prod.mk.eta.symm ▸ hkp
  have hal : alook w.Properties kp.1 = some kp.2 :=
    alook_of_mem_nodup w.Properties kp.1 kp.2 hnd hmemk
  have hval : kp.2.value (resetSettings w).heap = kp.2.PreviousValue :=
    (hloop.2 kp.1 kp.2 hal).1 (List.mem_map.mpr ⟨kp, hkp, rfl⟩)
  simp [hval]

/-- C5 witness: the amended claim evaluated on `exPanel`, whose single
entry is writable and has the valid previous value `1`. -/
theorem C5_reset_then_changed_amended_witness :
    changedSettings (resetSettings exPanel) = [] :=
  C5_reset_then_changed_amended exPanel ⟨0, exStore⟩ rfl (by decide) (by decide) (by decide)

/-! ### The `updateProperties` loop -/

/-- One `updateProperties` iteration when the store contains the key. -/
theorem updatePropertiesStep_contains_eq (acc : SettingsPanel) (r' : SettingsRef)
    (key : String) (e : PropertyType)
    (hs : acc.Settings = some r') (hc : r'.store.contains key = true)
    (hl : alook acc.Properties key = some e) :
    updatePropertiesStep acc key =
      { acc with
        heap := (e.setValue acc.heap (r'.store.value key)).1,
        Properties := minsert acc.Properties key
          { e with PreviousValue := r'.store.value key } } := by
  simp [updatePropertiesStep, hs, hc, hl]

/-- One `updateProperties` iteration when the store lacks the key. -/
theorem updatePropertiesStep_else_eq (acc : SettingsPanel) (r' : SettingsRef) (key : String)
    (hs : acc.Settings = some r') (hc : r'.store.contains key = false) :
    updatePropertiesStep acc key = updateSetting acc key := by
  simp [updatePropertiesStep, hs, hc]

/-- Invariant of the `updateProperties` fold over distinct keys: a store
stays attached and is only changed at processed keys, untouched slots
keep their entries and live values, and each processed key ends up
synchronized — stored value pushed onto the live property and recorded as
`PreviousValue` when the new store contains the key, live value pushed
into the store otherwise.  Hypotheses: writable entries, no
`QStringList`-typed entries (so no normalization fires), distinct keys on
distinct (object, property) slots. -/
theorem update_loop (P : List (String × PropertyType)) (H0 : List (Nat × Obj))
    (rNew : SettingsRef)
    (hw : ∀ kp ∈ P, kp.2.Object.isSome = true ∧ kp.2.Property ≠ "")
    (hsl : ∀ kp ∈ P, kp.2.declaredTypeName H0 ≠ some "QStringList")
    (hdist : ∀ kp1 ∈ P, ∀ kp2 ∈ P, kp1.1 ≠ kp2.1 →
      kp1.2.Object ≠ kp2.2.Object ∨ kp1.2.Property ≠ kp2.2.Property) :
    ∀ (ks : List String) (acc : SettingsPanel) (r' : SettingsRef),
      acc.Settings = some r' →
      ks.Nodup →
      (∀ k, k ∈ ks → k ∈ P.map Prod.fst) →
      (∀ k p, k ∈ ks → alook P k = some p → alook acc.Properties k = some p) →
      (∀ k, k ∈ ks → alook r'.store.data k = alook rNew.store.data k) →
      (∀ k p, k ∈ ks → alook P k = some p → p.value acc.heap = p.value H0) →
      (∀ k p, k ∈ ks → alook P k = some p →
        p.declaredTypeName acc.heap = p.declaredTypeName H0) →
      (∃ r2, (ks.foldl updatePropertiesStep acc).Settings = some r2 ∧
        ∀ k, k ∉ ks → alook r2.store.data k = alook r'.store.data k) ∧
      (∀ k q, k ∉ ks → alook acc.Properties k = some q →
        (∀ k2 e2, k2 ∈ ks → alook P k2 = some e2 →
          q.Object ≠ e2.Object ∨ q.Property ≠ e2.Property) →
        alook (ks.foldl updatePropertiesStep acc).Properties k = some q ∧
        q.value (ks.foldl updatePropertiesStep acc).heap = q.value acc.heap) ∧
      (∀ k p, k ∈ ks → alook P k = some p →
        (rNew.store.contains k = true →
          alook (ks.foldl updatePropertiesStep acc).Properties k =
            some { p with PreviousValue := rNew.store.value k } ∧
          p.value (ks.foldl updatePropertiesStep acc).heap = rNew.store.value k) ∧
        (rNew.store.contains k = false →
          ∃ r2, (ks.foldl updatePropertiesStep acc).Settings = some r2 ∧
            r2.store.value k = p.value H0)) := by
  intro ks
  induction ks with
  | nil =>
    intro acc r' hs hnd hmem hprops hstore hheap htype
    refine ⟨⟨r', hs, fun k _ => rfl⟩, fun k q _ hq _ => ⟨hq, rfl⟩,
      fun k p hk _ => absurd hk (List.not_mem_nil k)⟩
  | cons k0 rest ih =>
    intro acc r' hs hnd hmem hprops hstore hheap htype
    rw [List.nodup_cons] at hnd
    have hk0P : k0 ∈ P.map Prod.fst := hmem k0 (List.mem_cons_self _ _)
    obtain ⟨e0, he0⟩ := alook_isSome_of_mem_keys P k0 hk0P
    have he0acc : alook acc.Properties k0 = some e0 :=
      hprops k0 e0 (List.mem_cons_self _ _) he0
    have hmem0 : (k0, e0) ∈ P := mem_of_alook P k0 e0 he0
    obtain ⟨ho0, hp0⟩ := hw (k0, e0) hmem0
    obtain ⟨i0, hi0⟩ := Option.isSome_iff_exists.mp ho0
    have htype0 : e0.declaredTypeName acc.heap = e0.declaredTypeName H0 :=
      htype k0 e0 (List.mem_cons_self _ _) he0
    have hsl0 : e0.declaredTypeName acc.heap ≠ some "QStringList" := by
      rw [htype0]; exact hsl (k0, e0) hmem0
    have hstore0 : alook r'.store.data k0 = alook rNew.store.data k0 :=
      hstore k0 (List.mem_cons_self _ _)
    have hcont_agree : r'.store.contains k0 = rNew.store.contains k0 := by
      simp [Store.contains, hstore0]
    have hval_agree : r'.store.value k0 = rNew.store.value k0 := by
      simp [Store.value, hstore0]
    by_cases hc : r'.store.contains k0 = true
    · -- store contains k0: push stored value, record PreviousValue
      rw [List.foldl_cons, updatePropertiesStep_contains_eq acc r' k0 e0 hs hc he0acc]
      have ihres := ih
        { acc with
          heap := (e0.setValue acc.heap (r'.store.value k0)).1,
          Properties := minsert acc.Properties k0
            { e0 with PreviousValue := r'.store.value k0 } }
        r' hs hnd.2 (fun k hk => hmem k (List.mem_cons_of_mem _ hk))
        (fun k p hk hal => by
          have hkk0 : k ≠ k0 := fun he => hnd.1 (he ▸ hk)
          show alook (minsert acc.Properties k0 _) k = some p
          rw [alook_minsert_ne _ _ _ _ hkk0]
          exact hprops k p (List.mem_cons_of_mem _ hk) hal)
        (fun k hk => hstore k (List.mem_cons_of_mem _ hk))
        (fun k p hk hal => by
          have hkk0 : k ≠ k0 := fun he => hnd.1 (he ▸ hk)
          show p.value (e0.setValue acc.heap (r'.store.value k0)).1 = p.value H0
          rw [value_setValue_frame e0 p acc.heap (r'.store.value k0)
            (hdist (k, p) (mem_of_alook P k p hal) (k0, e0) hmem0 hkk0)]
          exact hheap k p (List.mem_cons_of_mem _ hk) hal)
        (fun k p hk hal => by
          show p.declaredTypeName (e0.setValue acc.heap (r'.store.value k0)).1 =
            p.declaredTypeName H0
          rw [declaredTypeName_setValue e0 p acc.heap (r'.store.value k0)]
          exact htype k p (List.mem_cons_of_mem _ hk) hal)
      refine ⟨?_, ?_, ?_⟩
      · obtain ⟨r2, hr2, hagree⟩ := ihres.1
        exact ⟨r2, hr2, fun k hk =>
          hagree k (fun hkr => hk (List.mem_cons_of_mem _ hkr))⟩
      · intro k q hk hq hdq
        have hkk0 : k ≠ k0 := fun he => hk (he ▸ List.mem_cons_self _ _)
        have hq' : alook (minsert acc.Properties k0
            { e0 with PreviousValue := r'.store.value k0 }) k = some q := by
          rw [alook_minsert_ne _ _ _ _ hkk0]; exact hq
        have hres := ihres.2.1 k q (fun hkr => hk (List.mem_cons_of_mem _ hkr)) hq'
          (fun k2 e2 hk2 hal2 => hdq k2 e2 (List.mem_cons_of_mem _ hk2) hal2)
        refine ⟨hres.1, ?_⟩
        rw [hres.2]
        exact value_setValue_frame e0 q acc.heap (r'.store.value k0)
          (hdq k0 e0 (List.mem_cons_self _ _) he0)
      · intro k p hk hal
        by_cases hkrest : k ∈ rest
        · exact ihres.2.2 k p hkrest hal
        · have hkk0 : k = k0 := by
            rcases List.mem_cons.mp hk with h | h
            · exact h
            · exact absurd h hkrest
          subst hkk0
          have hpe : p = e0 := by rw [he0] at hal; cases hal; rfl
          subst hpe
          constructor
          · intro _
            have hq' : alook (minsert acc.Properties k
                { p with PreviousValue := r'.store.value k }) k =
                some { p with PreviousValue := r'.store.value k } :=
              alook_minsert_self _ _ _
            have hres := ihres.2.1 k { p with PreviousValue := r'.store.value k }
              hkrest hq'
              (fun k2 e2 hk2 hal2 => by
                show p.Object ≠ e2.Object ∨ p.Property ≠ e2.Property
                exact hdist (k, p) hmem0 (k2, e2) (mem_of_alook P k2 e2 hal2)
                  (fun he => hnd.1 (by rw [show k = k2 from he]; exact hk2)))
            constructor
            · rw [hres.1, hval_agree]
            · have hv : p.value (p.setValue acc.heap (r'.store.value k)).1 =
                  r'.store.value k :=
                value_setValue_self p acc.heap (r'.store.value k) i0 hi0 hp0
                  (Or.inr hsl0)
              calc p.value (rest.foldl updatePropertiesStep
                    { acc with
                      heap := (p.setValue acc.heap (r'.store.value k)).1,
                      Properties := minsert acc.Properties k
                        { p with PreviousValue := r'.store.value k } }).heap
                  = PropertyType.value { p with PreviousValue := r'.store.value k }
                      (rest.foldl updatePropertiesStep
                        { acc with
                          heap := (p.setValue acc.heap (r'.store.value k)).1,
                          Properties := minsert acc.Properties k
                            { p with PreviousValue := r'.store.value k } }).heap := rfl
                _ = PropertyType.value { p with PreviousValue := r'.store.value k }
                      (p.setValue acc.heap (r'.store.value k)).1 := hres.2
                _ = p.value (p.setValue acc.heap (r'.store.value k)).1 := rfl
                _ = r'.store.value k := hv
                _ = rNew.store.value k := hval_agree
          · intro hfalse
            rw [hcont_agree, hfalse] at hc
            cases hc
    · -- store lacks k0: push the live value into the store
      have hcF : r'.store.contains k0 = false := Bool.eq_false_iff.mpr hc
      rw [List.foldl_cons, updatePropertiesStep_else_eq acc r' k0 hs hcF,
        updateSetting_eq acc k0 r' e0 hs he0acc,
        setSetting_eq acc r' k0 (e0.value acc.heap) e0 hs he0acc]
      have ihres := ih
        { acc with
          Settings := some { r' with store := r'.store.setValue k0 (e0.value acc.heap) },
          heap := (e0.setValue acc.heap (e0.value acc.heap)).1,
          warnings := if r'.store.status ≠ 0 then acc.warnings ++ [(r'.store.status, k0)]
                      else acc.warnings,
          emitted := if r'.store.value k0 ≠ e0.value acc.heap then
                       acc.emitted ++ [(k0, e0.value acc.heap)]
                     else acc.emitted }
        { r' with store := r'.store.setValue k0 (e0.value acc.heap) }
        rfl hnd.2 (fun k hk => hmem k (List.mem_cons_of_mem _ hk))
        (fun k p hk hal => hprops k p (List.mem_cons_of_mem _ hk) hal)
        (fun k hk => by
          have hkk0 : k ≠ k0 := fun he => hnd.1 (he ▸ hk)
          show alook (aset r'.store.data k0 (e0.value acc.heap)) k =
            alook rNew.store.data k
          rw [alook_aset_ne _ _ _ _ hkk0]
          exact hstore k (List.mem_cons_of_mem _ hk))
        (fun k p hk hal => by
          have hkk0 : k ≠ k0 := fun he => hnd.1 (he ▸ hk)
          show p.value (e0.setValue acc.heap (e0.value acc.heap)).1 = p.value H0
          rw [value_setValue_frame e0 p acc.heap (e0.value acc.heap)
            (hdist (k, p) (mem_of_alook P k p hal) (k0, e0) hmem0 hkk0)]
          exact hheap k p (List.mem_cons_of_mem _ hk) hal)
        (fun k p hk hal => by
          show p.declaredTypeName (e0.setValue acc.heap (e0.value acc.heap)).1 =
            p.declaredTypeName H0
          rw [declaredTypeName_setValue e0 p acc.heap (e0.value acc.heap)]
          exact htype k p (List.mem_cons_of_mem _ hk) hal)
      refine ⟨?_, ?_, ?_⟩
      · obtain ⟨r2, hr2, hagree⟩ := ihres.1
        refine ⟨r2, hr2, fun k hk => ?_⟩
        have hkk0 : k ≠ k0 := fun he => hk (he ▸ List.mem_cons_self _ _)
        rw [hagree k (fun hkr => hk (List.mem_cons_of_mem _ hkr))]
        exact alook_aset_ne _ _ _ _ hkk0
      · intro k q hk hq hdq
        have hres := ihres.2.1 k q (fun hkr => hk (List.mem_cons_of_mem _ hkr)) hq
          (fun k2 e2 hk2 hal2 => hdq k2 e2 (List.mem_cons_of_mem _ hk2) hal2)
        refine ⟨hres.1, ?_⟩
        rw [hres.2]
        exact value_setValue_frame e0 q acc.heap (e0.value acc.heap)
          (hdq k0 e0 (List.mem_cons_self _ _) he0)
      · intro k p hk hal
        by_cases hkrest : k ∈ rest
        · exact ihres.2.2 k p hkrest hal
        · have hkk0 : k = k0 := by
            rcases List.mem_cons.mp hk with h | h
            · exact h
            · exact absurd h hkrest
          subst hkk0
          have hpe : p = e0 := by rw [he0] at hal; cases hal; rfl
          subst hpe
          constructor
          · intro htrue
            rw [hcont_agree, htrue] at hcF
            cases hcF
          · intro _
            obtain ⟨r2, hr2, hagree⟩ := ihres.1
            refine ⟨r2, hr2, ?_⟩
            have hag := hagree k hkrest
            show (alook r2.store.data k).getD .invalid = p.value H0
            rw [show alook r2.store.data k =
              alook (aset r'.store.data k (p.value acc.heap)) k from hag]
            rw [alook_aset_self]
            show p.value acc.heap = p.value H0
            exact hheap k p hk hal

/-- C10: `setSettings(s)` is a complete no-op (registry, live properties,
previous values, store and logs unchanged) when `s` is the
already-attached store pointer; when the pointer differs, the reference is
replaced and `updateProperties()` runs once, which for every registered
key (writable, non-`QStringList`, distinct slots) pushes a contained
stored value onto the live property and `PreviousValue`, and otherwise
pushes the live value into the new store. -/
theorem C10_setSettings_pointer_guard (w : SettingsPanel) (rNew : SettingsRef)
    (hnd : (w.Properties.map Prod.fst).Nodup)
    (hw : ∀ kp ∈ w.Properties, kp.2.Object.isSome = true ∧ kp.2.Property ≠ "")
    (hsl : ∀ kp ∈ w.Properties, kp.2.declaredTypeName w.heap ≠ some "QStringList")
    (hdist : ∀ kp1 ∈ w.Properties, ∀ kp2 ∈ w.Properties, kp1.1 ≠ kp2.1 →
      kp1.2.Object ≠ kp2.2.Object ∨ kp1.2.Property ≠ kp2.2.Property) :
    (∀ rOpt : Option SettingsRef,
      w.Settings.map SettingsRef.id = rOpt.map SettingsRef.id → setSettings w rOpt = w) ∧
    (w.Settings.map SettingsRef.id ≠ some rNew.id →
      setSettings w (some rNew) = updateProperties { w with Settings := some rNew } ∧
      ∀ k p, alook w.Properties k = some p →
        (rNew.store.contains k = true →
          previousPropertyValue (setSettings w (some rNew)) k = rNew.store.value k ∧
          propertyValue (setSettings w (some rNew)) k = rNew.store.value k) ∧
        (rNew.store.contains k = false →
          ∃ r2, (setSettings w (some rNew)).Settings = some r2 ∧
            r2.store.value k = p.value w.heap)) := by
  constructor
  · intro rOpt h
    rw [setSettings, if_pos h]
  · intro hid
    have hneq : ¬ (w.Settings.map SettingsRef.id = (some rNew).map SettingsRef.id) := by
      simpa using hid
    have heq : setSettings w (some rNew) =
        updateProperties { w with Settings := some rNew } := by
      rw [setSettings, if_neg hneq]
    refine ⟨heq, ?_⟩
    have hup : updateProperties { w with Settings := some rNew } =
        (w.Properties.map Prod.fst).foldl updatePropertiesStep
          { w with Settings := some rNew } := rfl
    intro k p hal
    have hkmem : k ∈ w.Properties.map Prod.fst :=
      List.mem_map.mpr ⟨(k, p), mem_of_alook _ _ _ hal, rfl⟩
    have hloop := update_loop w.Properties w.heap rNew hw hsl hdist
      (w.Properties.map Prod.fst) { w with Settings := some rNew } rNew rfl hnd
      (fun k2 hk2 => hk2) (fun k2 p2 _ h => h) (fun k2 _ => rfl)
      (fun k2 p2 _ _ => rfl) (fun k2 p2 _ _ => rfl)
    have hres := hloop.2.2 k p hkmem hal
    constructor
    · intro hcont
      obtain ⟨hentry, hlive⟩ := hres.1 hcont
      constructor
      · rw [heq, hup]
        simp only [previousPropertyValue, hentry]
      · rw [heq, hup]
        simp only [propertyValue, hentry]
        rw [value_update_previous]
        exact hlive
    · intro hcont
      obtain ⟨r2, hr2, hv2⟩ := hres.2 hcont
      rw [heq, hup]
      exact ⟨r2, hr2, hv2⟩

/-- C10 witness: re-attaching `exPanel`'s own store (pointer id `0`) is a
no-op even with different contents behind a hypothetical equal pointer,
while attaching a fresh store (id `1`) holding `"k" ↦ 3` pushes `3` onto
the live property and the recorded previous value. -/
theorem C10_setSettings_pointer_guard_witness :
    setSettings exPanel (some ⟨0, exStore⟩) = exPanel ∧
    previousPropertyValue (setSettings exPanel (some ⟨1, ⟨[("k", .intV 3)], 0⟩⟩)) "k" =
      .intV 3 ∧
    propertyValue (setSettings exPanel (some ⟨1, ⟨[("k", .intV 3)], 0⟩⟩)) "k" = .intV 3 := by
  have h := C10_setSettings_pointer_guard exPanel ⟨1, ⟨[("k", .intV 3)], 0⟩⟩
    (by decide) (by decide) (by decide) (by decide)
  have h2 := h.2 (by decide)
  have h3 := (h2.2 "k" exProp (by decide)).1 (by decide)
  exact ⟨h.1 (some ⟨0, exStore⟩) rfl, h3.1.trans (by decide), h3.2.trans (by decide)⟩
